import Mathlib

/-!
# Verification of the beetseeker reconciliation core

Shallow embedding of the three source modules:
* `slskd.py`   – download-status snapshot analysis (directory names,
  completed-directory classification, per-directory completion query);
* `betanin.py` – the import submission handshake (`import_downloads`);
* `main.py`    – the polling reconciliation loop (queue, processed set,
  failure counters), one cycle of the `while True` body as a state
  transition function `runCycle`.

Remote HTTP behaviour is modelled by explicit environment records: the
snapshots returned by the two fetches of a cycle, the configured-key flag,
and the outcome of each remote call.
-/

/-- One file record from the download-status API: `{filename, state}`. -/
structure FileEntry where
  filename : String
  state : String
deriving DecidableEq

/-- One directory record of a peer: `{directory, files}`. -/
structure DirEntry where
  directory : String
  files : List FileEntry
deriving DecidableEq

/-- One peer record: `{username, directories}`. -/
structure UserEntry where
  username : String
  directories : List DirEntry
deriving DecidableEq

/-- The download-status snapshot: the JSON array returned by
`GET /api/v0/transfers/downloads` (empty on any fetch error). -/
abbrev Snapshot := List UserEntry

/-- The exact per-file completion sentinel compared against `file['state']`
in `slskd.py`. -/
def completedState : String := "Completed, Succeeded"

/-- Character-level form of `str.replace('\\', '/')`. -/
def normChar (c : Char) : Char := if c = '\\' then '/' else c

/-- Python's `dir_path.replace('\\', '/').rstrip('/').split('/')[-1]` from
`slskd.py` (used identically at lines 46-49, 171-172 and 239-240),
implemented by structural recursion on the character list: map the
backslash replacement, drop trailing `/`, and keep the final
`/`-separated segment. -/
def normalizeDirName (p : String) : String :=
  let cs := (p.data.map normChar).reverse.dropWhile fun c => c == '/'
  ⟨(cs.takeWhile fun c => c != '/').reverse⟩

/-- Python's `str.lower()` restricted to its ASCII action (`Char.toLower` is the
ASCII case map), as used by `is_directory_completed`. -/
def lowerName (s : String) : String := ⟨s.data.map Char.toLower⟩

/-- Python's `os.path.basename(parent_directory.replace('\\', '/'))` from
`betanin.py` line 40: the part after the last `/`, with no stripping of a
trailing separator. -/
def posixBasename (p : String) : String :=
  ⟨((p.data.map normChar).reverse.takeWhile fun c => c != '/').reverse⟩

/-- One step of the directory-collection fold of `get_subdirectories`
(`slskd.py` lines 41-50): skip an absent/empty `directory` path, else add
the normalized name if not already present.  The Python code accumulates
into a `set`; we realize that set as a duplicate-free list in first-insertion
order. -/
def addDirName (acc : List String) (di : DirEntry) : List String :=
  if di.directory = "" then acc
  else
    let n := normalizeDirName di.directory
    if n ∈ acc then acc else acc ++ [n]

/-- Function `get_subdirectories` (`slskd.py` lines 25-62) after its internal fetch:
the set of normalized directory names appearing anywhere in the snapshot.
(The function's `directory` argument is unused by the Python code.) -/
def directoryNames (data : Snapshot) : List String :=
  data.foldl (fun acc u => u.directories.foldl addDirName acc) []

/-- Function `all_downloads_completed` (`slskd.py` lines 101-140): returns
`(all_completed, completed_files, total_files)` aggregated over every file
of every directory of every peer; `(False, 0, 0)` on an empty snapshot. -/
def all_downloads_completed (data : Snapshot) : Bool × Nat × Nat :=
  if data = [] then (false, 0, 0)
  else
    let counts := data.foldl (fun acc u =>
      u.directories.foldl (fun acc di =>
        di.files.foldl (fun acc f =>
          ((acc.1 + 1 : Nat),
           if f.state = completedState then acc.2 + 1 else acc.2)) acc) acc)
      ((0, 0) : Nat × Nat)
    (decide (counts.2 = counts.1 ∧ 0 < counts.1), counts.2, counts.1)

/-- Python's `directories_status[dir_name] = [0, 0]` guarded by the
`if dir_name not in directories_status` membership test
(`slskd.py` lines 175-176), on the association-list realization of the
Python dict (insertion appends at the end, keys stay unique). -/
def initStatus : List (String × Nat × Nat) → String → List (String × Nat × Nat)
  | [], n => [(n, (0, 0))]
  | e :: m, n => if e.1 = n then e :: m else e :: initStatus m n

/-- One file of `slskd.py` lines 179-183:
`directories_status[dir_name][0] += 1` and, when `b` (the state equals the
sentinel), `directories_status[dir_name][1] += 1`. -/
def addFileStatus : List (String × Nat × Nat) → String → Bool → List (String × Nat × Nat)
  | [], _, _ => []
  | e :: m, n, b =>
    if e.1 = n then (e.1, (e.2.1 + 1, e.2.2 + if b then 1 else 0)) :: m
    else e :: addFileStatus m n b

/-- The file loop of `slskd.py` lines 179-183 over one directory entry. -/
def applyFiles (m : List (String × Nat × Nat)) (n : String)
    (files : List FileEntry) : List (String × Nat × Nat) :=
  files.foldl (fun m f => addFileStatus m n (f.state == completedState)) m

/-- One directory entry of the accumulation loop of
`get_completed_directories` (`slskd.py` lines 164-183): skip an empty
path, else ensure the dict entry exists and count this entry's files. -/
def addDirStatus (m : List (String × Nat × Nat)) (di : DirEntry) :
    List (String × Nat × Nat) :=
  if di.directory = "" then m
  else
    let n := normalizeDirName di.directory
    applyFiles (initStatus m n) n di.files

/-- The `directories_status` dict of `get_completed_directories`
(`slskd.py` lines 160-183), as an association list in key-insertion
order. -/
def directoriesStatus (data : Snapshot) : List (String × Nat × Nat) :=
  data.foldl (fun m u => u.directories.foldl addDirStatus m) []

/-- Function `get_completed_directories` (`slskd.py` lines 143-208): `[]` on an
empty snapshot, else the names whose aggregated counts satisfy
`total_files > 0 and completed_files == total_files`, in dict order. -/
def get_completed_directories (data : Snapshot) : List String :=
  if data = [] then []
  else
    ((directoriesStatus data).filter fun e =>
      decide (0 < e.2.1 ∧ e.2.2 = e.2.1)).map (·.1)

/-- The `in_progress_directories` list built alongside the completed one
(`slskd.py` lines 186-199): names whose aggregated counts fail
`total_files > 0 and completed_files == total_files`. -/
def in_progress_directories (data : Snapshot) : List String :=
  if data = [] then []
  else
    ((directoriesStatus data).filter fun e =>
      decide (¬ (0 < e.2.1 ∧ e.2.2 = e.2.1))).map (·.1)

/-- Function `is_directory_completed` (`slskd.py` lines 211-263): `False` on an
empty snapshot; else aggregate `(total_files, completed_files)` over every
directory entry whose normalized name equals the queried name
case-insensitively, and return `False` when no file was found, else
`completed_files == total_files`. -/
def is_directory_completed (data : Snapshot) (directory_name : String) : Bool :=
  if data = [] then false
  else
    let target := lowerName directory_name
    let counts := data.foldl (fun acc u =>
      u.directories.foldl (fun acc di =>
        if di.directory = "" then acc
        else if lowerName (normalizeDirName di.directory) = target then
          di.files.foldl (fun acc f =>
            ((acc.1 + 1 : Nat),
             if f.state = completedState then acc.2 + 1 else acc.2)) acc
        else acc) acc) ((0, 0) : Nat × Nat)
    if counts.1 = 0 then false else counts.2 == counts.1

/-! ## betanin.py : the import handshake -/

/-- Outcome of one remote HTTP call as seen by the Python code: a
response with a status code, or a raised exception (caught by the
surrounding `try`). -/
inductive HttpOutcome where
  | ok (status : Nat)
  | exn
deriving DecidableEq

/-- The network calls `import_downloads` can make, in order: the
download-status fetch (line 47), the connectivity probe GET (line 79),
the import POST (line 116). -/
inductive BetaninCall where
  | fetchStatus
  | probe
  | post
deriving DecidableEq

/-- Environment of one `import_downloads` invocation: the configured API
key (`""` models an absent key, matching Python falsiness of
`config.BETANIN_API_KEY`), the import-root prefix, the snapshot the
status fetch returns, and the outcomes of the probe GET and import
POST. -/
structure BetaninEnv where
  apiKey : String
  importDirectory : String
  snapshot : Snapshot
  probe : HttpOutcome
  post : HttpOutcome
deriving DecidableEq

/-- Observable outcome of `import_downloads`: the returned boolean, the
remote calls attempted, the composite path the POST would carry, and the
two log-only completion checks (`None` when control never reached
them). -/
structure ImportOutcome where
  result : Bool
  calls : List BetaninCall
  postedPath : Option String
  loggedAllCompleted : Option (Bool × Nat × Nat)
  loggedDirCompleted : Option Bool
deriving DecidableEq

/-- Function `import_downloads` (`betanin.py` lines 26-148).  Control flow of the
source: missing API key returns `False` before any network call; then the
status fetch and the two completion checks happen but only feed log
lines; the connectivity probe aborts with `False` on an exception or any
non-200 status (so the POST is never attempted); otherwise the POST is
made and the function returns `True` exactly on status 200 (every other
status or an exception yields `False`). -/
def import_downloads (env : BetaninEnv) (parent_directory : String) :
    ImportOutcome :=
  if env.apiKey = "" then ⟨false, [], none, none, none⟩
  else
    let directory_name := posixBasename parent_directory
    let betanin_path := env.importDirectory ++ "/" ++ directory_name
    let download_data := env.snapshot
    let allc := all_downloads_completed download_data
    let dirc := is_directory_completed download_data directory_name
    match env.probe with
    | .exn =>
      ⟨false, [.fetchStatus, .probe], some betanin_path, some allc, some dirc⟩
    | .ok s =>
      if s = 200 then
        match env.post with
        | .exn =>
          ⟨false, [.fetchStatus, .probe, .post], some betanin_path,
            some allc, some dirc⟩
        | .ok s2 =>
          ⟨decide (s2 = 200), [.fetchStatus, .probe, .post],
            some betanin_path, some allc, some dirc⟩
      else
        ⟨false, [.fetchStatus, .probe], some betanin_path, some allc, some dirc⟩

/-! ## main.py : the reconciliation loop -/

/-- The mutable loop state of `main.py`: `subdirectory_queue` (a FIFO
deque), `previous_subdirectories`, `processed_directories` (sets realized
as lists, membership only), and `processing_failures` (a dict realized as
an association list in key-insertion order). -/
structure LoopState where
  queue : List String
  previous : List String
  processed : List String
  failures : List (String × Nat)
deriving DecidableEq

/-- The per-cycle environment: the snapshot `download_data` fetched at
line 96, the (independently fetched) snapshot behind
`get_subdirectories` at line 97, whether `config.BETANIN_API_KEY` is
configured, the outcome of `betanin.import_downloads` for each directory
this cycle, and the log-only `check_manual_intervention_needed`
answer. -/
structure CycleEnv where
  downloadData : Snapshot
  subdirsData : Snapshot
  betaninKey : Bool
  importOk : String → Bool
  manualIntervention : Bool

/-- Python's `processed_directories.add(d)` — a set insertion, realized on the
list representation. -/
def addProcessed (s : List String) (d : String) : List String :=
  if d ∈ s then s else d :: s

/-- Python's `processing_failures[d] += 1` when present, else
`processing_failures[d] = 1` (`main.py` lines 159-162), on the
association-list realization of the dict. -/
def bumpFailure : List (String × Nat) → String → List (String × Nat)
  | [], d => [(d, 1)]
  | e :: m, d => if e.1 = d then (e.1, e.2 + 1) :: m else e :: bumpFailure m d

/-- Python's `processing_failures[d]` as an optional lookup. -/
def lookupFailure : List (String × Nat) → String → Option Nat
  | [], _ => none
  | e :: m, d => if e.1 = d then some e.2 else lookupFailure m d

/-- The two enqueue passes of a cycle (`main.py` lines 100-118): first,
every newly appeared name (`current - previous`, case-sensitive) that is
completed and not processed is appended — with no queue-membership test;
second, every current name that is completed, not processed and not
already a queue member is appended.  The Python first pass iterates a
set; we iterate the deduplicated current list in order. -/
def enqueuePhase (env : CycleEnv) (st : LoopState) : List String :=
  let current := directoryNames env.subdirsData
  let completed := get_completed_directories env.downloadData
  let newdirs := current.filter fun d => decide (d ∉ st.previous)
  let q1 := newdirs.foldl
    (fun q d => if d ∈ completed ∧ d ∉ st.processed then q ++ [d] else q)
    st.queue
  current.foldl
    (fun q d =>
      if d ∈ completed ∧ d ∉ st.processed ∧ d ∉ q then q ++ [d] else q)
    q1

/-- One full iteration of the `while True` body (`main.py` lines 89-183):
the enqueue passes, then processing of the queue head if any — re-check
completion against `download_data`; if incomplete, move head to the tail;
if complete but the key is missing, pop and `continue` (which skips the
`previous` update of line 183); if the import succeeds, mark processed
and pop; if it fails, bump the failure counter and either abandon (pop
only, counter ≥ 3) or move to the tail — and finally
`previous = current`. -/
def runCycle (env : CycleEnv) (st : LoopState) : LoopState :=
  let current := directoryNames env.subdirsData
  match enqueuePhase env st with
  | [] => ⟨[], current, st.processed, st.failures⟩
  | d :: rest =>
    if is_directory_completed env.downloadData d then
      if env.betaninKey = false then
        ⟨rest, st.previous, st.processed, st.failures⟩
      else if env.importOk d then
        ⟨rest, current, addProcessed st.processed d, st.failures⟩
      else
        let f := bumpFailure st.failures d
        if 3 ≤ (lookupFailure f d).getD 0 then
          ⟨rest, current, st.processed, f⟩
        else
          ⟨rest ++ [d], current, st.processed, f⟩
    else
      ⟨rest ++ [d], current, st.processed, st.failures⟩

/-- The startup state (`main.py` lines 44-68): empty tracking state, the
first `get_subdirectories` answer as `previous`, and every initially
completed directory (none being processed yet) appended to the queue. -/
def initialState (downloadData subdirsData : Snapshot) : LoopState :=
  let completed := get_completed_directories downloadData
  let queue := completed.foldl
    (fun q d => if d ∈ ([] : List String) then q else q ++ [d]) []
  ⟨queue, directoryNames subdirsData, [], []⟩

/-! ## Specification-side aggregates

The spec describes the completion classification as a sum of file counts
over every occurrence of a normalized name.  These definitions state that
aggregation directly; the theorems below relate them to the dict-building
code embedded above. -/

/-- Aggregated file total over the entries of one peer whose normalized
name equals `n` exactly (case-sensitive, as in
`get_completed_directories`). -/
def dirsTotal (dirs : List DirEntry) (n : String) : Nat :=
  (dirs.map fun di =>
    if di.directory ≠ "" ∧ normalizeDirName di.directory = n
    then di.files.length else 0).sum

/-- Aggregated completed-file count (states equal to the sentinel) over
the entries of one peer whose normalized name equals `n` exactly. -/
def dirsCompleted (dirs : List DirEntry) (n : String) : Nat :=
  (dirs.map fun di =>
    if di.directory ≠ "" ∧ normalizeDirName di.directory = n
    then di.files.countP (fun f => f.state == completedState) else 0).sum

/-- Snapshot-wide aggregated file total for the normalized name `n`,
summed across all peers. -/
def dirTotalFiles (data : Snapshot) (n : String) : Nat :=
  (data.map fun u => dirsTotal u.directories n).sum

/-- Snapshot-wide aggregated completed-file count for the normalized name
`n`, summed across all peers. -/
def dirCompletedFiles (data : Snapshot) (n : String) : Nat :=
  (data.map fun u => dirsCompleted u.directories n).sum

/-- Some non-empty directory path in `dirs` normalizes to `n`. -/
def dirsOccur (dirs : List DirEntry) (n : String) : Prop :=
  ∃ di ∈ dirs, di.directory ≠ "" ∧ normalizeDirName di.directory = n

/-- Some non-empty directory path in the snapshot normalizes to `n`. -/
def dirOccurs (data : Snapshot) (n : String) : Prop :=
  ∃ u ∈ data, dirsOccur u.directories n

instance (dirs : List DirEntry) (n : String) : Decidable (dirsOccur dirs n) := by
  unfold dirsOccur; exact inferInstance

instance (data : Snapshot) (n : String) : Decidable (dirOccurs data n) := by
  unfold dirOccurs; exact inferInstance

/-- Aggregated file total over one peer's entries whose lower-cased
normalized name equals the (already lower-cased) `target`, matching the
case-insensitive matching of `is_directory_completed`. -/
def ciDirsTotal (dirs : List DirEntry) (target : String) : Nat :=
  (dirs.map fun di =>
    if di.directory ≠ "" ∧ lowerName (normalizeDirName di.directory) = target
    then di.files.length else 0).sum

/-- Aggregated completed-file count over one peer's case-insensitively
matching entries. -/
def ciDirsCompleted (dirs : List DirEntry) (target : String) : Nat :=
  (dirs.map fun di =>
    if di.directory ≠ "" ∧ lowerName (normalizeDirName di.directory) = target
    then di.files.countP (fun f => f.state == completedState) else 0).sum

/-- Snapshot-wide aggregated file total over entries matching `n`
case-insensitively. -/
def ciTotalFiles (data : Snapshot) (n : String) : Nat :=
  (data.map fun u => ciDirsTotal u.directories (lowerName n)).sum

/-- Snapshot-wide aggregated completed-file count over entries matching
`n` case-insensitively. -/
def ciCompletedFiles (data : Snapshot) (n : String) : Nat :=
  (data.map fun u => ciDirsCompleted u.directories (lowerName n)).sum

/-- Lookup in the association-list realization of the
`directories_status` dict (proof-side helper). -/
def findStatus : List (String × Nat × Nat) → String → Option (Nat × Nat)
  | [], _ => none
  | e :: m, n => if e.1 = n then some e.2 else findStatus m n

/-- Rename every peer's username, leaving directories and files alone
(used to express that the snapshot analysis ignores everything but the
directory and file data). -/
def setUsernames (f : String → String) (data : Snapshot) : Snapshot :=
  data.map fun u => ⟨f u.username, u.directories⟩

/-! ## Concrete scenario inputs used by counterexamples and witnesses -/

/-- Snapshot with a single peer holding one fully transferred file in
directory `a`. -/
def exDD : Snapshot := [⟨"u", [⟨"a", [⟨"f", "Completed, Succeeded"⟩]⟩]⟩]

/-- Cycle environment in which directory `a` is present and completed but
every import attempt fails. -/
def exEnv : CycleEnv := ⟨exDD, exDD, true, fun _ => false, false⟩

/-- Startup state for the `exDD` scenario. -/
def exSt0 : LoopState := initialState exDD exDD

/-- State after one failing cycle on `a`. -/
def exSt1 : LoopState := runCycle exEnv exSt0

/-- State after three failing cycles on `a`: `a` has just been abandoned
with its counter at 3. -/
def exSt3 : LoopState := runCycle exEnv (runCycle exEnv exSt1)

/-- Cycle environment in which both fetches return nothing (the remote
briefly reports no transfers). -/
def emptyEnv : CycleEnv := ⟨[], [], true, fun _ => false, false⟩

/-- State after `a` was enqueued and retried once, then vanished from the
fetched directory set for one cycle (so `previous` becomes empty while
`a` is still queued). -/
def exVanish : LoopState := runCycle emptyEnv exSt1

/-- Snapshot with one completed file in directory `b` (scenario used for
the failure-counter frame counterexample). -/
def exDDb : Snapshot := [⟨"u", [⟨"b", [⟨"g", "Completed, Succeeded"⟩]⟩]⟩]

/-- Environment for the `b` scenario: always-failing imports. -/
def exEnvb : CycleEnv := ⟨exDDb, exDDb, true, fun _ => false, false⟩

/-- State after three failing cycles on `b`: abandoned, counter at 3. -/
def exSt3b : LoopState :=
  runCycle exEnvb (runCycle exEnvb (runCycle exEnvb (initialState exDDb exDDb)))

/-- Snapshot in which directory `Album` appears with zero observed
files. -/
def exZeroFiles : Snapshot := [⟨"u", [⟨"Album", []⟩]⟩]

/-- Loop state whose processed set already holds `p` (used to witness
monotonicity of the processed set). -/
def exStP : LoopState := ⟨[], [], ["p"], []⟩

/-- Betanin environment whose connectivity probe answers 401. -/
def exBetanin401 : BetaninEnv := ⟨"key", "/music", [], .ok 401, .ok 200⟩

/-- Betanin environment with a reachable sink accepting the POST. -/
def exBetaninOk : BetaninEnv := ⟨"key", "/music", [], .ok 200, .ok 200⟩

/-! ## Fold-to-sum lemmas for the case-insensitive completion query -/

/-- The per-file counting fold adds the file count and the
sentinel-state count. -/
lemma filesCount_foldl (files : List FileEntry) (acc : Nat × Nat) :
    files.foldl (fun acc f =>
      ((acc.1 + 1 : Nat),
       if f.state = completedState then acc.2 + 1 else acc.2)) acc
    = (acc.1 + files.length,
       acc.2 + files.countP fun f => f.state == completedState) := by
  induction files generalizing acc with
  | nil => simp
  | cons f fs ih =>
    simp only [List.foldl_cons, ih, List.length_cons, List.countP_cons]
    by_cases h : f.state = completedState <;>
      simp [h, Prod.mk.injEq] <;> omega

/-- The per-directory fold of `is_directory_completed` adds the
case-insensitive aggregates of one peer. -/
lemma ciDirs_foldl (dirs : List DirEntry) (target : String) (acc : Nat × Nat) :
    dirs.foldl (fun acc di =>
      if di.directory = "" then acc
      else if lowerName (normalizeDirName di.directory) = target then
        di.files.foldl (fun acc f =>
          ((acc.1 + 1 : Nat),
           if f.state = completedState then acc.2 + 1 else acc.2)) acc
      else acc) acc
    = (acc.1 + ciDirsTotal dirs target, acc.2 + ciDirsCompleted dirs target) := by
  induction dirs generalizing acc with
  | nil => simp [ciDirsTotal, ciDirsCompleted]
  | cons di dirs ih =>
    rw [List.foldl_cons]
    by_cases h1 : di.directory = ""
    · rw [if_pos h1, ih]
      simp [ciDirsTotal, ciDirsCompleted, h1]
    · by_cases h2 : lowerName (normalizeDirName di.directory) = target
      · rw [if_neg h1, if_pos h2, filesCount_foldl, ih]
        simp only [ciDirsTotal, ciDirsCompleted, List.map_cons, List.sum_cons,
          Prod.mk.injEq]
        rw [if_pos ⟨h1, h2⟩, if_pos ⟨h1, h2⟩]
        constructor <;> omega
      · rw [if_neg h1, if_neg h2, ih]
        have hc : ¬ (di.directory ≠ "" ∧
            lowerName (normalizeDirName di.directory) = target) := by
          intro hh; exact h2 hh.2
        simp [ciDirsTotal, ciDirsCompleted, hc]

/-- The full fold of `is_directory_completed` computes the snapshot-wide
case-insensitive aggregates. -/
lemma ciData_foldl (data : Snapshot) (target : String) (acc : Nat × Nat) :
    data.foldl (fun acc u =>
      u.directories.foldl (fun acc di =>
        if di.directory = "" then acc
        else if lowerName (normalizeDirName di.directory) = target then
          di.files.foldl (fun acc f =>
            ((acc.1 + 1 : Nat),
             if f.state = completedState then acc.2 + 1 else acc.2)) acc
        else acc) acc) acc
    = (acc.1 + (data.map fun u => ciDirsTotal u.directories target).sum,
       acc.2 + (data.map fun u => ciDirsCompleted u.directories target).sum) := by
  induction data generalizing acc with
  | nil => simp
  | cons u us ih =>
    rw [List.foldl_cons, ciDirs_foldl, ih]
    simp only [List.map_cons, List.sum_cons, Prod.mk.injEq]
    constructor <;> omega

/-! ## Lookup lemmas for the directories_status association list -/

lemma dirsTotal_cons (di : DirEntry) (dirs : List DirEntry) (x : String) :
    dirsTotal (di :: dirs) x
      = (if di.directory ≠ "" ∧ normalizeDirName di.directory = x
         then di.files.length else 0) + dirsTotal dirs x := by
  simp [dirsTotal]

lemma dirsCompleted_cons (di : DirEntry) (dirs : List DirEntry) (x : String) :
    dirsCompleted (di :: dirs) x
      = (if di.directory ≠ "" ∧ normalizeDirName di.directory = x
         then di.files.countP (fun f => f.state == completedState) else 0)
        + dirsCompleted dirs x := by
  simp [dirsCompleted]

lemma dirsOccur_cons (di : DirEntry) (dirs : List DirEntry) (x : String) :
    dirsOccur (di :: dirs) x ↔
      (di.directory ≠ "" ∧ normalizeDirName di.directory = x) ∨ dirsOccur dirs x := by
  simp [dirsOccur]

lemma dirTotalFiles_cons (u : UserEntry) (us : Snapshot) (x : String) :
    dirTotalFiles (u :: us) x = dirsTotal u.directories x + dirTotalFiles us x := by
  simp [dirTotalFiles]

lemma dirCompletedFiles_cons (u : UserEntry) (us : Snapshot) (x : String) :
    dirCompletedFiles (u :: us) x
      = dirsCompleted u.directories x + dirCompletedFiles us x := by
  simp [dirCompletedFiles]

lemma dirOccurs_cons (u : UserEntry) (us : Snapshot) (x : String) :
    dirOccurs (u :: us) x ↔ dirsOccur u.directories x ∨ dirOccurs us x := by
  simp [dirOccurs]

lemma dirsTotal_zero_of_not_occur {dirs : List DirEntry} {x : String}
    (h : ¬ dirsOccur dirs x) : dirsTotal dirs x = 0 ∧ dirsCompleted dirs x = 0 := by
  induction dirs with
  | nil => simp [dirsTotal, dirsCompleted]
  | cons di dirs ih =>
    have hd : ¬ (di.directory ≠ "" ∧ normalizeDirName di.directory = x) :=
      fun hh => h ((dirsOccur_cons di dirs x).2 (Or.inl hh))
    have ho : ¬ dirsOccur dirs x :=
      fun hh => h ((dirsOccur_cons di dirs x).2 (Or.inr hh))
    obtain ⟨h1, h2⟩ := ih ho
    rw [dirsTotal_cons, dirsCompleted_cons, if_neg hd, if_neg hd, h1, h2]
    simp

lemma dirTotalFiles_zero_of_not_occur {data : Snapshot} {x : String}
    (h : ¬ dirOccurs data x) : dirTotalFiles data x = 0 := by
  induction data with
  | nil => simp [dirTotalFiles]
  | cons u us ih =>
    have hu : ¬ dirsOccur u.directories x :=
      fun hh => h ((dirOccurs_cons u us x).2 (Or.inl hh))
    have ho : ¬ dirOccurs us x :=
      fun hh => h ((dirOccurs_cons u us x).2 (Or.inr hh))
    rw [dirTotalFiles_cons, (dirsTotal_zero_of_not_occur hu).1, ih ho]

lemma findStatus_initStatus_self (m : List (String × Nat × Nat)) (n : String) :
    findStatus (initStatus m n) n = some ((findStatus m n).getD (0, 0)) := by
  induction m with
  | nil => simp [initStatus, findStatus]
  | cons e m ih =>
    by_cases h : e.1 = n
    · simp [initStatus, findStatus, h]
    · simp [initStatus, findStatus, h, ih]

lemma findStatus_initStatus_ne (m : List (String × Nat × Nat)) (n x : String)
    (h : x ≠ n) : findStatus (initStatus m n) x = findStatus m x := by
  have h' : ¬ n = x := fun hh => h hh.symm
  induction m with
  | nil => simp [initStatus, findStatus, h']
  | cons e m ih =>
    by_cases he : e.1 = n
    · simp [initStatus, he]
    · simp [initStatus, findStatus, he, ih]

lemma findStatus_addFileStatus_self (m : List (String × Nat × Nat)) (n : String)
    (b : Bool) :
    findStatus (addFileStatus m n b) n
      = (findStatus m n).map fun p => (p.1 + 1, p.2 + if b then 1 else 0) := by
  induction m with
  | nil => simp [addFileStatus, findStatus]
  | cons e m ih =>
    by_cases h : e.1 = n
    · simp [addFileStatus, findStatus, h]
    · simp [addFileStatus, findStatus, h, ih]

lemma findStatus_addFileStatus_ne (m : List (String × Nat × Nat)) (n x : String)
    (b : Bool) (h : x ≠ n) :
    findStatus (addFileStatus m n b) x = findStatus m x := by
  induction m with
  | nil => simp [addFileStatus, findStatus]
  | cons e m ih =>
    by_cases he : e.1 = n
    · have hex : ¬ e.1 = x := by rw [he]; exact fun hh => h hh.symm
      have hnx : ¬ n = x := fun hh => h hh.symm
      simp [addFileStatus, findStatus, he, hex, hnx]
    · simp [addFileStatus, findStatus, he, ih]

lemma findStatus_applyFiles_self (files : List FileEntry)
    (m : List (String × Nat × Nat)) (n : String) :
    findStatus (applyFiles m n files) n
      = (findStatus m n).map fun p =>
          (p.1 + files.length,
           p.2 + files.countP fun f => f.state == completedState) := by
  induction files generalizing m with
  | nil => cases hm : findStatus m n <;> simp [applyFiles, hm]
  | cons f fs ih =>
    have h0 : applyFiles m n (f :: fs)
        = applyFiles (addFileStatus m n (f.state == completedState)) n fs := rfl
    rw [h0, ih, findStatus_addFileStatus_self]
    cases hm : findStatus m n with
    | none => simp
    | some p =>
      simp only [Option.map_some, List.countP_cons, List.length_cons,
        Option.some.injEq, Prod.mk.injEq]
      by_cases hb : (f.state == completedState) = true <;>
        simp [hb] <;> omega

lemma findStatus_applyFiles_ne (files : List FileEntry)
    (m : List (String × Nat × Nat)) (n x : String) (h : x ≠ n) :
    findStatus (applyFiles m n files) x = findStatus m x := by
  induction files generalizing m with
  | nil => simp [applyFiles]
  | cons f fs ih =>
    have h0 : applyFiles m n (f :: fs)
        = applyFiles (addFileStatus m n (f.state == completedState)) n fs := rfl
    rw [h0, ih, findStatus_addFileStatus_ne _ _ _ _ h]

lemma findStatus_addDirStatus_match (m : List (String × Nat × Nat))
    (di : DirEntry) (x : String) (h1 : di.directory ≠ "")
    (h2 : normalizeDirName di.directory = x) :
    findStatus (addDirStatus m di) x
      = some (((findStatus m x).getD (0, 0)).1 + di.files.length,
              ((findStatus m x).getD (0, 0)).2
                + di.files.countP fun f => f.state == completedState) := by
  simp only [addDirStatus, if_neg h1]
  rw [h2, findStatus_applyFiles_self, findStatus_initStatus_self]
  simp

lemma findStatus_addDirStatus_nomatch (m : List (String × Nat × Nat))
    (di : DirEntry) (x : String)
    (h : ¬ (di.directory ≠ "" ∧ normalizeDirName di.directory = x)) :
    findStatus (addDirStatus m di) x = findStatus m x := by
  by_cases h1 : di.directory = ""
  · simp [addDirStatus, h1]
  · have h2 : normalizeDirName di.directory ≠ x := fun hh => h ⟨h1, hh⟩
    simp only [addDirStatus, if_neg h1]
    rw [findStatus_applyFiles_ne _ _ _ _ (fun hh => h2 hh.symm),
      findStatus_initStatus_ne _ _ _ (fun hh => h2 hh.symm)]

lemma findStatus_dirsFold_noocc (dirs : List DirEntry) (x : String) :
    ∀ m, ¬ dirsOccur dirs x →
      findStatus (dirs.foldl addDirStatus m) x = findStatus m x := by
  induction dirs with
  | nil => intro m _; rfl
  | cons di dirs ih =>
    intro m h
    have hd : ¬ (di.directory ≠ "" ∧ normalizeDirName di.directory = x) :=
      fun hh => h ((dirsOccur_cons di dirs x).2 (Or.inl hh))
    have ho : ¬ dirsOccur dirs x :=
      fun hh => h ((dirsOccur_cons di dirs x).2 (Or.inr hh))
    rw [List.foldl_cons, ih _ ho, findStatus_addDirStatus_nomatch m di x hd]

lemma findStatus_dirsFold_occur (dirs : List DirEntry) (x : String) :
    ∀ m, dirsOccur dirs x →
      findStatus (dirs.foldl addDirStatus m) x
        = some (((findStatus m x).getD (0, 0)).1 + dirsTotal dirs x,
                ((findStatus m x).getD (0, 0)).2 + dirsCompleted dirs x) := by
  induction dirs with
  | nil => intro m h; exact absurd h (by simp [dirsOccur])
  | cons di dirs ih =>
    intro m h
    rw [List.foldl_cons]
    by_cases hd : di.directory ≠ "" ∧ normalizeDirName di.directory = x
    · have hstep := findStatus_addDirStatus_match m di x hd.1 hd.2
      by_cases ho : dirsOccur dirs x
      · rw [ih _ ho, hstep]
        rw [dirsTotal_cons, dirsCompleted_cons, if_pos hd, if_pos hd]
        simp only [Option.getD_some, Option.some.injEq, Prod.mk.injEq]
        constructor <;> omega
      · rw [findStatus_dirsFold_noocc dirs x _ ho, hstep]
        obtain ⟨hT, hC⟩ := dirsTotal_zero_of_not_occur ho
        rw [dirsTotal_cons, dirsCompleted_cons, if_pos hd, if_pos hd, hT, hC]
        simp
    · have hstep := findStatus_addDirStatus_nomatch m di x hd
      have ho : dirsOccur dirs x := by
        rcases (dirsOccur_cons di dirs x).1 h with h' | h'
        · exact absurd h' hd
        · exact h'
      rw [ih _ ho, hstep, dirsTotal_cons, dirsCompleted_cons, if_neg hd,
        if_neg hd]
      simp

lemma findStatus_dataFold_noocc (data : Snapshot) (x : String) :
    ∀ m, ¬ dirOccurs data x →
      findStatus (data.foldl (fun m u => u.directories.foldl addDirStatus m) m) x
        = findStatus m x := by
  induction data with
  | nil => intro m _; rfl
  | cons u us ih =>
    intro m h
    have hu : ¬ dirsOccur u.directories x :=
      fun hh => h ((dirOccurs_cons u us x).2 (Or.inl hh))
    have ho : ¬ dirOccurs us x :=
      fun hh => h ((dirOccurs_cons u us x).2 (Or.inr hh))
    rw [List.foldl_cons, ih _ ho, findStatus_dirsFold_noocc _ _ _ hu]

lemma dirCompletedFiles_zero_of_not_occur {data : Snapshot} {x : String}
    (h : ¬ dirOccurs data x) : dirCompletedFiles data x = 0 := by
  induction data with
  | nil => simp [dirCompletedFiles]
  | cons u us ih =>
    have hu : ¬ dirsOccur u.directories x :=
      fun hh => h ((dirOccurs_cons u us x).2 (Or.inl hh))
    have ho : ¬ dirOccurs us x :=
      fun hh => h ((dirOccurs_cons u us x).2 (Or.inr hh))
    rw [dirCompletedFiles_cons, (dirsTotal_zero_of_not_occur hu).2, ih ho]

lemma findStatus_dataFold_occur (data : Snapshot) (x : String) :
    ∀ m, dirOccurs data x →
      findStatus (data.foldl (fun m u => u.directories.foldl addDirStatus m) m) x
        = some (((findStatus m x).getD (0, 0)).1 + dirTotalFiles data x,
                ((findStatus m x).getD (0, 0)).2 + dirCompletedFiles data x) := by
  induction data with
  | nil => intro m h; exact absurd h (by simp [dirOccurs])
  | cons u us ih =>
    intro m h
    rw [List.foldl_cons]
    by_cases hu : dirsOccur u.directories x
    · have hstep := findStatus_dirsFold_occur u.directories x m hu
      by_cases ho : dirOccurs us x
      · rw [ih _ ho, hstep]
        rw [dirTotalFiles_cons, dirCompletedFiles_cons]
        simp only [Option.getD_some, Option.some.injEq, Prod.mk.injEq]
        constructor <;> omega
      · rw [findStatus_dataFold_noocc us x _ ho, hstep]
        rw [dirTotalFiles_cons, dirCompletedFiles_cons,
          dirTotalFiles_zero_of_not_occur ho, dirCompletedFiles_zero_of_not_occur ho]
        simp
    · have hstep := findStatus_dirsFold_noocc u.directories x m hu
      have ho : dirOccurs us x := by
        rcases (dirOccurs_cons u us x).1 h with h2 | h2
        · exact absurd h2 hu
        · exact h2
      rw [ih _ ho, hstep, dirTotalFiles_cons, dirCompletedFiles_cons,
        (dirsTotal_zero_of_not_occur hu).1, (dirsTotal_zero_of_not_occur hu).2]
      simp

/-- Lookup in the finished `directories_status` dict: a name that occurs
maps to the snapshot-wide summed counts; a name that does not occur is
absent. -/
lemma findStatus_directoriesStatus_occur {data : Snapshot} {x : String}
    (h : dirOccurs data x) :
    findStatus (directoriesStatus data) x
      = some (dirTotalFiles data x, dirCompletedFiles data x) := by
  have h0 := findStatus_dataFold_occur data x [] h
  simpa [directoriesStatus, findStatus] using h0

lemma findStatus_directoriesStatus_noocc {data : Snapshot} {x : String}
    (h : ¬ dirOccurs data x) :
    findStatus (directoriesStatus data) x = none := by
  have h0 := findStatus_dataFold_noocc data x [] h
  simpa [directoriesStatus, findStatus] using h0

lemma keys_addFileStatus (m : List (String × Nat × Nat)) (n : String) (b : Bool) :
    (addFileStatus m n b).map (·.1) = m.map (·.1) := by
  induction m with
  | nil => rfl
  | cons e m ih =>
    by_cases h : e.1 = n
    · simp [addFileStatus, h]
    · simp [addFileStatus, h, ih]

lemma keys_applyFiles (files : List FileEntry) (m : List (String × Nat × Nat))
    (n : String) : (applyFiles m n files).map (·.1) = m.map (·.1) := by
  induction files generalizing m with
  | nil => rfl
  | cons f fs ih =>
    have h0 : applyFiles m n (f :: fs)
        = applyFiles (addFileStatus m n (f.state == completedState)) n fs := rfl
    rw [h0, ih, keys_addFileStatus]

lemma mem_keys_initStatus {m : List (String × Nat × Nat)} {n x : String}
    (h : x ∈ (initStatus m n).map (·.1)) : x ∈ m.map (·.1) ∨ x = n := by
  induction m with
  | nil => simpa [initStatus] using h
  | cons e m ih =>
    by_cases he : e.1 = n
    · simp only [initStatus, if_pos he] at h
      exact Or.inl h
    · simp only [initStatus, if_neg he, List.map_cons, List.mem_cons] at h
      rcases h with h | h
      · exact Or.inl (by simp [h])
      · rcases ih h with h2 | h2
        · exact Or.inl (by rw [List.map_cons]; exact List.mem_cons_of_mem _ h2)
        · exact Or.inr h2

lemma nodup_keys_initStatus {m : List (String × Nat × Nat)} {n : String}
    (h : (m.map (·.1)).Nodup) : ((initStatus m n).map (·.1)).Nodup := by
  induction m with
  | nil => simp [initStatus]
  | cons e m ih =>
    rw [List.map_cons, List.nodup_cons] at h
    by_cases he : e.1 = n
    · simp only [initStatus, if_pos he, List.map_cons, List.nodup_cons]
      exact h
    · simp only [initStatus, if_neg he, List.map_cons, List.nodup_cons]
      refine ⟨fun hmem => ?_, ih h.2⟩
      rcases mem_keys_initStatus hmem with h2 | h2
      · exact h.1 h2
      · exact he h2

lemma nodup_keys_addDirStatus {m : List (String × Nat × Nat)} (di : DirEntry)
    (h : (m.map (·.1)).Nodup) : ((addDirStatus m di).map (·.1)).Nodup := by
  by_cases h1 : di.directory = ""
  · simpa [addDirStatus, h1] using h
  · simp only [addDirStatus, if_neg h1]
    rw [keys_applyFiles]
    exact nodup_keys_initStatus h

lemma nodup_keys_dirsFold (dirs : List DirEntry) :
    ∀ m : List (String × Nat × Nat), (m.map (·.1)).Nodup →
      ((dirs.foldl addDirStatus m).map (·.1)).Nodup := by
  induction dirs with
  | nil => intro m h; exact h
  | cons di dirs ih =>
    intro m h
    rw [List.foldl_cons]
    exact ih _ (nodup_keys_addDirStatus di h)

lemma nodup_keys_directoriesStatus (data : Snapshot) :
    ((directoriesStatus data).map (·.1)).Nodup := by
  have h0 : ∀ m : List (String × Nat × Nat), (m.map (·.1)).Nodup →
      ((data.foldl (fun m u => u.directories.foldl addDirStatus m) m).map
        (·.1)).Nodup := by
    induction data with
    | nil => intro m h; exact h
    | cons u us ih =>
      intro m h
      rw [List.foldl_cons]
      exact ih _ (nodup_keys_dirsFold u.directories m h)
  simpa [directoriesStatus] using h0 [] (by simp)

/-- Membership in the name projection of a filtered association list with
unique keys is exactly a successful lookup whose value passes the
filter. -/
lemma mem_filterKeys_iff (P : String × Nat × Nat → Bool)
    (x : String) :
    ∀ m : List (String × Nat × Nat), (m.map (·.1)).Nodup →
      (x ∈ (m.filter P).map (·.1) ↔
        ∃ tc, findStatus m x = some tc ∧ P (x, tc) = true) := by
  intro m
  induction m with
  | nil => simp [findStatus]
  | cons e m ih =>
    intro h
    rw [List.map_cons, List.nodup_cons] at h
    have hsub : x ∈ (m.filter P).map (·.1) → x ∈ m.map (·.1) := by
      intro hx
      obtain ⟨e2, he2, heq⟩ := List.mem_map.1 hx
      exact List.mem_map.2 ⟨e2, List.mem_of_mem_filter he2, heq⟩
    by_cases hex : e.1 = x
    · have hfs : findStatus (e :: m) x = some e.2 := by
        simp [findStatus, hex]
      cases hP : P e with
      | true =>
        have hf : List.filter P (e :: m) = e :: List.filter P m := by
          simp [List.filter_cons, hP]
        rw [hf, hfs]
        constructor
        · intro _
          refine ⟨e.2, rfl, ?_⟩
          rw [← hex]
          simpa using hP
        · intro _
          rw [List.map_cons, hex]
          exact List.mem_cons_self _ _
      | false =>
        have hf : List.filter P (e :: m) = List.filter P m := by
          simp [List.filter_cons, hP]
        rw [hf, hfs]
        constructor
        · intro hx
          exact absurd (hex ▸ hsub hx) h.1
        · rintro ⟨tc, htc, hPtc⟩
          obtain rfl : e.2 = tc := by injection htc
          rw [← hex] at hPtc
          simp only [Prod.mk.eta] at hPtc
          rw [hP] at hPtc
          cases hPtc
    · have hfs : findStatus (e :: m) x = findStatus m x := by
        simp [findStatus, hex]
      rw [hfs]
      cases hP : P e with
      | true =>
        have hf : List.filter P (e :: m) = e :: List.filter P m := by
          simp [List.filter_cons, hP]
        rw [hf, List.map_cons]
        rw [List.mem_cons, ih h.2]
        constructor
        · rintro (h2 | h2)
          · exact absurd h2.symm hex
          · exact h2
        · intro h2; exact Or.inr h2
      | false =>
        have hf : List.filter P (e :: m) = List.filter P m := by
          simp [List.filter_cons, hP]
        rw [hf]
        exact ih h.2

/-- Membership characterization of the completed-directory classification:
exactly the names whose snapshot-wide summed counts are positive and
all-completed. -/
lemma mem_completed_iff (data : Snapshot) (n : String) :
    n ∈ get_completed_directories data ↔
      0 < dirTotalFiles data n ∧ dirCompletedFiles data n = dirTotalFiles data n := by
  by_cases hd : data = []
  · subst hd
    simp [get_completed_directories, dirTotalFiles]
  · simp only [get_completed_directories]
    rw [if_neg hd,
      mem_filterKeys_iff _ n (directoriesStatus data) (nodup_keys_directoriesStatus data)]
    by_cases ho : dirOccurs data n
    · rw [findStatus_directoriesStatus_occur ho]
      simp
    · rw [findStatus_directoriesStatus_noocc ho]
      simp [dirTotalFiles_zero_of_not_occur ho]

/-- A name that occurs in the snapshot but fails the completed test lands
in the in-progress classification. -/
lemma mem_in_progress_of_occur {data : Snapshot} {n : String}
    (ho : dirOccurs data n)
    (h : ¬ (0 < dirTotalFiles data n ∧
            dirCompletedFiles data n = dirTotalFiles data n)) :
    n ∈ in_progress_directories data := by
  have hd : ¬ data = [] := by
    rcases ho with ⟨u, hu, _⟩
    intro he; subst he; simp at hu
  simp only [in_progress_directories]
  rw [if_neg hd,
    mem_filterKeys_iff _ n (directoriesStatus data) (nodup_keys_directoriesStatus data)]
  refine ⟨(dirTotalFiles data n, dirCompletedFiles data n),
    findStatus_directoriesStatus_occur ho, ?_⟩
  rw [decide_eq_true_eq]
  exact h

/-- Closed form of `is_directory_completed` in terms of the
case-insensitive aggregates. -/
lemma is_directory_completed_eq (data : Snapshot) (n : String) :
    is_directory_completed data n
      = if data = [] then false
        else if ciTotalFiles data n = 0 then false
        else ciCompletedFiles data n == ciTotalFiles data n := by
  by_cases hd : data = []
  · simp [is_directory_completed, hd]
  · simp only [is_directory_completed, hd, if_false, ite_false]
    rw [ciData_foldl]
    simp [ciTotalFiles, ciCompletedFiles]

/-! ## Properties of the collected directory-name set -/

lemma nodup_addDirName {acc : List String} (di : DirEntry)
    (h : acc.Nodup) : (addDirName acc di).Nodup := by
  by_cases h1 : di.directory = ""
  · simpa [addDirName, h1] using h
  · simp only [addDirName, if_neg h1]
    by_cases h2 : normalizeDirName di.directory ∈ acc
    · simpa [h2] using h
    · simp only [h2, if_neg, if_false, ite_false]
      rw [List.nodup_append]
      exact ⟨h, List.nodup_singleton _,
        fun a ha hb => by
          rw [List.mem_singleton] at hb
          subst hb
          exact h2 ha⟩

lemma nodup_dirsFoldName (dirs : List DirEntry) :
    ∀ acc : List String, acc.Nodup → (dirs.foldl addDirName acc).Nodup := by
  induction dirs with
  | nil => intro acc h; exact h
  | cons di dirs ih =>
    intro acc h
    rw [List.foldl_cons]
    exact ih _ (nodup_addDirName di h)

lemma nodup_directoryNames (data : Snapshot) : (directoryNames data).Nodup := by
  have h0 : ∀ acc : List String, acc.Nodup →
      (data.foldl (fun acc u => u.directories.foldl addDirName acc) acc).Nodup := by
    induction data with
    | nil => intro acc h; exact h
    | cons u us ih =>
      intro acc h
      rw [List.foldl_cons]
      exact ih _ (nodup_dirsFoldName u.directories acc h)
  simpa [directoryNames] using h0 [] (by simp)

/-! ## Purity of the snapshot analysis -/

lemma directoryNames_setUsernames (f : String → String) (data : Snapshot) :
    directoryNames (setUsernames f data) = directoryNames data := by
  simp [directoryNames, setUsernames, List.foldl_map]

lemma directoriesStatus_setUsernames (f : String → String) (data : Snapshot) :
    directoriesStatus (setUsernames f data) = directoriesStatus data := by
  simp [directoriesStatus, setUsernames, List.foldl_map]

lemma get_completed_directories_setUsernames (f : String → String)
    (data : Snapshot) :
    get_completed_directories (setUsernames f data)
      = get_completed_directories data := by
  by_cases hd : data = []
  · subst hd; rfl
  · have hd2 : ¬ setUsernames f data = [] := by
      simp [setUsernames, hd]
    simp only [get_completed_directories, if_neg hd, if_neg hd2,
      directoriesStatus_setUsernames]

/-- Counting a different element in a singleton list gives zero. -/
lemma count_singleton_ne {d x : String} (h : ¬ x = d) : List.count d [x] = 0 := by
  have h2 : ¬ d = x := fun hh => h hh.symm
  simp [List.count_cons, h2]

/-! ## Failure-counter dict lemmas -/

lemma lookupFailure_bumpFailure_self (m : List (String × Nat)) (d : String) :
    lookupFailure (bumpFailure m d) d
      = some ((lookupFailure m d).getD 0 + 1) := by
  induction m with
  | nil => simp [bumpFailure, lookupFailure]
  | cons e m ih =>
    by_cases h : e.1 = d
    · simp [bumpFailure, lookupFailure, h]
    · simp [bumpFailure, lookupFailure, h, ih]

lemma lookupFailure_bumpFailure_ne (m : List (String × Nat)) (d x : String)
    (h : x ≠ d) : lookupFailure (bumpFailure m d) x = lookupFailure m x := by
  have hdx : ¬ d = x := fun hh => h hh.symm
  induction m with
  | nil => simp [bumpFailure, lookupFailure, hdx]
  | cons e m ih =>
    by_cases he : e.1 = d
    · have hex : ¬ e.1 = x := by rw [he]; exact hdx
      simp [bumpFailure, lookupFailure, he, hex, hdx]
    · simp [bumpFailure, lookupFailure, he, ih]

lemma lookupFailure_bumpFailure_mono (m : List (String × Nat)) (d x : String)
    (n : Nat) (h : lookupFailure m x = some n) :
    ∃ k, lookupFailure (bumpFailure m d) x = some k ∧ n ≤ k := by
  by_cases hx : x = d
  · subst hx
    refine ⟨n + 1, ?_, Nat.le_succ n⟩
    rw [lookupFailure_bumpFailure_self, h]
    rfl
  · exact ⟨n, by rw [lookupFailure_bumpFailure_ne m d x hx]; exact h, le_refl n⟩

/-! ## Enqueue-fold lemmas -/

lemma count_enq1_notmem (comp proc : List String) (d : String) :
    ∀ (l q : List String), d ∉ l →
      (l.foldl (fun q x => if x ∈ comp ∧ x ∉ proc then q ++ [x] else q) q).count d
        = q.count d := by
  intro l
  induction l with
  | nil => intro q _; rfl
  | cons x l ih =>
    intro q hd
    have hxd : ¬ x = d := fun hh => hd (by rw [hh]; exact List.mem_cons_self _ _)
    have hdl : d ∉ l := fun hh => hd (List.mem_cons_of_mem _ hh)
    rw [List.foldl_cons]
    by_cases hc : x ∈ comp ∧ x ∉ proc
    · rw [if_pos hc, ih _ hdl, List.count_append, count_singleton_ne hxd]
      omega
    · rw [if_neg hc, ih _ hdl]

lemma count_enq1_le_one (comp proc : List String) (d : String) :
    ∀ (l q : List String), l.Nodup → q.count d = 0 →
      (l.foldl (fun q x => if x ∈ comp ∧ x ∉ proc then q ++ [x] else q) q).count d
        ≤ 1 := by
  intro l
  induction l with
  | nil => intro q _ hq; simp [hq]
  | cons x l ih =>
    intro q hnd hq
    rw [List.nodup_cons] at hnd
    rw [List.foldl_cons]
    by_cases hc : x ∈ comp ∧ x ∉ proc
    · rw [if_pos hc]
      by_cases hxd : x = d
      · subst hxd
        rw [count_enq1_notmem comp proc x l _ hnd.1, List.count_append, hq]
        simp
      · exact ih _ hnd.2 (by
          rw [List.count_append, hq, count_singleton_ne hxd])
    · rw [if_neg hc]
      exact ih _ hnd.2 hq

lemma count_enq2_le_one (comp proc : List String) (d : String) :
    ∀ (l q : List String), q.count d ≤ 1 →
      (l.foldl
        (fun q x => if x ∈ comp ∧ x ∉ proc ∧ x ∉ q then q ++ [x] else q) q).count d
        ≤ 1 := by
  intro l
  induction l with
  | nil => intro q hq; exact hq
  | cons x l ih =>
    intro q hq
    rw [List.foldl_cons]
    by_cases hc : x ∈ comp ∧ x ∉ proc ∧ x ∉ q
    · rw [if_pos hc]
      refine ih _ ?_
      rw [List.count_append]
      by_cases hxd : x = d
      · subst hxd
        have h0 : q.count x = 0 := List.count_eq_zero.2 hc.2.2
        rw [h0]
        simp
      · rw [count_singleton_ne hxd]
        simpa using hq
    · rw [if_neg hc]
      exact ih _ hq

lemma mem_enq1 (comp proc : List String) (d : String) :
    ∀ (l q : List String), d ∉ q →
      d ∈ l.foldl (fun q x => if x ∈ comp ∧ x ∉ proc then q ++ [x] else q) q →
      d ∈ comp ∧ d ∉ proc := by
  intro l
  induction l with
  | nil => intro q hq hm; exact absurd hm hq
  | cons x l ih =>
    intro q hq hm
    rw [List.foldl_cons] at hm
    by_cases hc : x ∈ comp ∧ x ∉ proc
    · rw [if_pos hc] at hm
      by_cases hdq : d ∈ q ++ [x]
      · rcases List.mem_append.1 hdq with h2 | h2
        · exact absurd h2 hq
        · rw [List.mem_singleton] at h2
          subst h2
          exact hc
      · exact ih _ hdq hm
    · rw [if_neg hc] at hm
      exact ih _ hq hm

lemma mem_enq2 (comp proc : List String) (d : String) :
    ∀ (l q : List String), d ∉ q →
      d ∈ l.foldl
        (fun q x => if x ∈ comp ∧ x ∉ proc ∧ x ∉ q then q ++ [x] else q) q →
      d ∈ comp ∧ d ∉ proc := by
  intro l
  induction l with
  | nil => intro q hq hm; exact absurd hm hq
  | cons x l ih =>
    intro q hq hm
    rw [List.foldl_cons] at hm
    by_cases hc : x ∈ comp ∧ x ∉ proc ∧ x ∉ q
    · rw [if_pos hc] at hm
      by_cases hdq : d ∈ q ++ [x]
      · rcases List.mem_append.1 hdq with h2 | h2
        · exact absurd h2 hq
        · rw [List.mem_singleton] at h2
          subst h2
          exact ⟨hc.1, hc.2.1⟩
      · exact ih _ hdq hm
    · rw [if_neg hc] at hm
      exact ih _ hq hm

lemma count_enq1_processed (comp proc : List String) (d : String)
    (hd : d ∈ proc) :
    ∀ (l q : List String),
      (l.foldl (fun q x => if x ∈ comp ∧ x ∉ proc then q ++ [x] else q) q).count d
        = q.count d := by
  intro l
  induction l with
  | nil => intro q; rfl
  | cons x l ih =>
    intro q
    rw [List.foldl_cons]
    by_cases hc : x ∈ comp ∧ x ∉ proc
    · have hxd : ¬ x = d := fun hh => hc.2 (hh ▸ hd)
      rw [if_pos hc, ih, List.count_append, count_singleton_ne hxd]
      omega
    · rw [if_neg hc, ih]

lemma count_enq2_processed (comp proc : List String) (d : String)
    (hd : d ∈ proc) :
    ∀ (l q : List String),
      (l.foldl
        (fun q x => if x ∈ comp ∧ x ∉ proc ∧ x ∉ q then q ++ [x] else q) q).count d
        = q.count d := by
  intro l
  induction l with
  | nil => intro q; rfl
  | cons x l ih =>
    intro q
    rw [List.foldl_cons]
    by_cases hc : x ∈ comp ∧ x ∉ proc ∧ x ∉ q
    · have hxd : ¬ x = d := fun hh => hc.2.1 (hh ▸ hd)
      rw [if_pos hc, ih, List.count_append, count_singleton_ne hxd]
      omega
    · rw [if_neg hc, ih]

/-! ## Branch characterizations of one reconciliation cycle -/

lemma mem_addProcessed (s : List String) (d x : String) :
    x ∈ addProcessed s d ↔ x = d ∨ x ∈ s := by
  by_cases h : d ∈ s
  · simp only [addProcessed, if_pos h]
    constructor
    · intro h2; exact Or.inr h2
    · rintro (rfl | h2)
      · exact h
      · exact h2
  · simp [addProcessed, h]

lemma count_move_to_tail (rest : List String) (d0 d : String) :
    (rest ++ [d0]).count d = (d0 :: rest).count d := by
  simp only [List.count_append, List.count_cons, List.count_nil]
  omega

lemma runCycle_nil (env : CycleEnv) (st : LoopState)
    (hq : enqueuePhase env st = []) :
    runCycle env st
      = ⟨[], directoryNames env.subdirsData, st.processed, st.failures⟩ := by
  simp [runCycle, hq]

lemma runCycle_incomplete (env : CycleEnv) (st : LoopState) (d : String)
    (rest : List String) (hq : enqueuePhase env st = d :: rest)
    (hc : is_directory_completed env.downloadData d = false) :
    runCycle env st
      = ⟨rest ++ [d], directoryNames env.subdirsData, st.processed,
         st.failures⟩ := by
  simp [runCycle, hq, hc]

lemma runCycle_nokey (env : CycleEnv) (st : LoopState) (d : String)
    (rest : List String) (hq : enqueuePhase env st = d :: rest)
    (hc : is_directory_completed env.downloadData d = true)
    (hk : env.betaninKey = false) :
    runCycle env st = ⟨rest, st.previous, st.processed, st.failures⟩ := by
  simp [runCycle, hq, hc, hk]

lemma runCycle_success (env : CycleEnv) (st : LoopState) (d : String)
    (rest : List String) (hq : enqueuePhase env st = d :: rest)
    (hc : is_directory_completed env.downloadData d = true)
    (hk : env.betaninKey = true) (hio : env.importOk d = true) :
    runCycle env st
      = ⟨rest, directoryNames env.subdirsData,
         addProcessed st.processed d, st.failures⟩ := by
  simp [runCycle, hq, hc, hk, hio]

lemma runCycle_fail_abandon (env : CycleEnv) (st : LoopState) (d : String)
    (rest : List String) (hq : enqueuePhase env st = d :: rest)
    (hc : is_directory_completed env.downloadData d = true)
    (hk : env.betaninKey = true) (hio : env.importOk d = false)
    (h3 : 3 ≤ (lookupFailure st.failures d).getD 0 + 1) :
    runCycle env st
      = ⟨rest, directoryNames env.subdirsData, st.processed,
         bumpFailure st.failures d⟩ := by
  simp [runCycle, hq, hc, hk, hio, lookupFailure_bumpFailure_self, h3]

lemma runCycle_fail_retry (env : CycleEnv) (st : LoopState) (d : String)
    (rest : List String) (hq : enqueuePhase env st = d :: rest)
    (hc : is_directory_completed env.downloadData d = true)
    (hk : env.betaninKey = true) (hio : env.importOk d = false)
    (h3 : (lookupFailure st.failures d).getD 0 + 1 < 3) :
    runCycle env st
      = ⟨rest ++ [d], directoryNames env.subdirsData, st.processed,
         bumpFailure st.failures d⟩ := by
  have h4 : ¬ 3 ≤ (lookupFailure st.failures d).getD 0 + 1 := by omega
  simp [runCycle, hq, hc, hk, hio, lookupFailure_bumpFailure_self, h4]

/-! ## Enqueue-phase facts at the cycle level -/

lemma enqueuePhase_count_le_one (env : CycleEnv) (st : LoopState) (d : String)
    (h : d ∉ st.queue) : (enqueuePhase env st).count d ≤ 1 := by
  simp only [enqueuePhase]
  exact count_enq2_le_one _ _ d _ _
    (count_enq1_le_one _ _ d _ st.queue
      ((nodup_directoryNames env.subdirsData).filter _)
      (List.count_eq_zero.2 h))

lemma enqueuePhase_mem (env : CycleEnv) (st : LoopState) (d : String)
    (h : d ∉ st.queue) (hm : d ∈ enqueuePhase env st) :
    d ∈ get_completed_directories env.downloadData ∧ d ∉ st.processed := by
  simp only [enqueuePhase] at hm
  by_cases hq1 : d ∈ ((directoryNames env.subdirsData).filter
      fun x => decide (x ∉ st.previous)).foldl
      (fun q x =>
        if x ∈ get_completed_directories env.downloadData ∧ x ∉ st.processed
        then q ++ [x] else q) st.queue
  · exact mem_enq1 _ _ d _ _ h hq1
  · exact mem_enq2 _ _ d _ _ hq1 hm

lemma enqueuePhase_processed_count (env : CycleEnv) (st : LoopState)
    (d : String) (hd : d ∈ st.processed) :
    (enqueuePhase env st).count d = st.queue.count d := by
  simp only [enqueuePhase]
  rw [count_enq2_processed _ _ d hd, count_enq1_processed _ _ d hd]

lemma runCycle_queue_count_le (env : CycleEnv) (st : LoopState) (d : String) :
    (runCycle env st).queue.count d ≤ (enqueuePhase env st).count d := by
  cases hq : enqueuePhase env st with
  | nil => simp [runCycle_nil env st hq]
  | cons d0 rest =>
    have hle : rest.count d ≤ (d0 :: rest).count d := by
      rw [List.count_cons]; omega
    cases hc : is_directory_completed env.downloadData d0 with
    | false =>
      rw [runCycle_incomplete env st d0 rest hq hc]
      show (rest ++ [d0]).count d ≤ (d0 :: rest).count d
      rw [count_move_to_tail]
    | true =>
      cases hk : env.betaninKey with
      | false => rw [runCycle_nokey env st d0 rest hq hc hk]; exact hle
      | true =>
        cases hio : env.importOk d0 with
        | true => rw [runCycle_success env st d0 rest hq hc hk hio]; exact hle
        | false =>
          by_cases h3 : 3 ≤ (lookupFailure st.failures d0).getD 0 + 1
          · rw [runCycle_fail_abandon env st d0 rest hq hc hk hio h3]
            exact hle
          · rw [runCycle_fail_retry env st d0 rest hq hc hk hio (by omega)]
            show (rest ++ [d0]).count d ≤ (d0 :: rest).count d
            rw [count_move_to_tail]

/-! ## Claim theorems -/

/-- C3: for every snapshot, `get_completed_directories` classifies a
directory name as completed iff its aggregated total file count is
positive and its aggregated completed count (files whose state string
exactly equals "Completed, Succeeded") equals the total, where all
occurrences of the same normalized name — across every peer — are summed
into one entry (`dirTotalFiles` / `dirCompletedFiles` are exactly those
sums). -/
theorem c3_completed_classification (data : Snapshot) (n : String) :
    n ∈ get_completed_directories data ↔
      0 < dirTotalFiles data n ∧
      dirCompletedFiles data n = dirTotalFiles data n :=
  mem_completed_iff data n

/-- C4: `is_directory_completed` aggregates file counts only over entries
whose normalized name case-insensitively equals the queried name
(`ciTotalFiles` / `ciCompletedFiles` are those sums), returns true iff at
least one matching file exists and every matching file carries the
completion sentinel, and returns false whenever zero matching files are
found — in particular on the empty snapshot. -/
theorem c4_ci_completion_query (data : Snapshot) (n : String) :
    (is_directory_completed data n = true ↔
       0 < ciTotalFiles data n ∧
       ciCompletedFiles data n = ciTotalFiles data n) ∧
    (ciTotalFiles data n = 0 → is_directory_completed data n = false) ∧
    is_directory_completed [] n = false := by
  refine ⟨?_, ?_, by simp [is_directory_completed]⟩
  · rw [is_directory_completed_eq]
    by_cases hd : data = []
    · subst hd
      simp [ciTotalFiles]
    · rw [if_neg hd]
      by_cases hT : ciTotalFiles data n = 0
      · simp [hT]
      · rw [if_neg hT]
        simp only [beq_iff_eq]
        constructor
        · intro h2; exact ⟨Nat.pos_of_ne_zero hT, h2⟩
        · intro h2; exact h2.2
  · intro hT
    rw [is_directory_completed_eq]
    by_cases hd : data = [] <;> simp [hd, hT]

/-- C4 witness: the theorem applied to the empty snapshot, discharging
the zero-matching-files hypothesis concretely. -/
theorem c4_ci_completion_query_witness :
    is_directory_completed [] "AlbumX" = false :=
  (c4_ci_completion_query [] "AlbumX").2.1 (by decide)

/-- C6 counterexample: the snapshot `exZeroFiles` contains directory
`Album` with zero observed files, and `get_completed_directories`
classifies it as in-progress, so a zero-file directory is NOT excluded
from both classifications — refuting the claim as stated. -/
theorem c6_counterexample :
    dirTotalFiles exZeroFiles "Album" = 0 ∧
    "Album" ∈ in_progress_directories exZeroFiles := by
  constructor
  · decide
  · decide

/-- C6 (amended): a directory whose aggregated file count is zero is
excluded from the completed classification, but when it occurs in the
snapshot it is placed in the in-progress classification (the source's
`else` branch takes every dict entry failing
`total_files > 0 and completed_files == total_files`, including
zero-file entries). -/
theorem c6_zero_file_classification (data : Snapshot) (n : String)
    (h : dirTotalFiles data n = 0) :
    n ∉ get_completed_directories data ∧
    (dirOccurs data n → n ∈ in_progress_directories data) := by
  constructor
  · intro hm
    have h2 := (mem_completed_iff data n).1 hm
    omega
  · intro ho
    refine mem_in_progress_of_occur ho ?_
    rw [h]
    intro h2
    exact absurd h2.1 (lt_irrefl 0)

/-- C6 witness: the amended theorem applied to the concrete zero-file
snapshot. -/
theorem c6_zero_file_classification_witness :
    "Album" ∉ get_completed_directories exZeroFiles ∧
    (dirOccurs exZeroFiles "Album" → "Album" ∈ in_progress_directories exZeroFiles) :=
  c6_zero_file_classification exZeroFiles "Album" (by decide)

/-- C7: `directoryNames` and `get_completed_directories` are pure
functions of the snapshot: two calls on the same snapshot give
syntactically the same result (the embedding is deterministic), and the
result does not depend on anything outside the directory/file data — in
particular it is invariant under arbitrary rewriting of every peer
username. -/
theorem c7_purity (data : Snapshot) (f : String → String) :
    directoryNames data = directoryNames data ∧
    get_completed_directories data = get_completed_directories data ∧
    directoryNames (setUsernames f data) = directoryNames data ∧
    get_completed_directories (setUsernames f data)
      = get_completed_directories data :=
  ⟨rfl, rfl, directoryNames_setUsernames f data,
    get_completed_directories_setUsernames f data⟩

/-- C8: `import_downloads` returns false immediately with no network call
when the API key is not configured; a connectivity probe answering any
non-200 status (401 included) makes it return false without attempting
the POST; and when the key is configured and the probe answers 200, it
returns true iff the POST answers 200 (every other POST status, and a
POST exception, surfaces uniformly as false). -/
theorem c8_submit_gates (env : BetaninEnv) (d : String) :
    (env.apiKey = "" → import_downloads env d = ⟨false, [], none, none, none⟩) ∧
    (∀ s, env.probe = .ok s → s ≠ 200 →
       (import_downloads env d).result = false ∧
       BetaninCall.post ∉ (import_downloads env d).calls) ∧
    (env.apiKey ≠ "" → env.probe = .ok 200 →
       ((import_downloads env d).result = true ↔ env.post = .ok 200)) := by
  refine ⟨?_, ?_, ?_⟩
  · intro h
    simp [import_downloads, h]
  · intro s hp hs
    by_cases hk : env.apiKey = ""
    · simp [import_downloads, hk]
    · simp [import_downloads, hk, hp, hs]
  · intro hk hp
    cases hpost : env.post with
    | exn => simp [import_downloads, hk, hp, hpost]
    | ok s2 => simp [import_downloads, hk, hp, hpost]

/-- C8 witness: the theorem applied to the concrete 401-probe
environment, discharging each hypothesis of the probe conjunct. -/
theorem c8_submit_gates_witness :
    (import_downloads exBetanin401 "x").result = false ∧
    BetaninCall.post ∉ (import_downloads exBetanin401 "x").calls :=
  (c8_submit_gates exBetanin401 "x").2.1 401 rfl (by decide)

/-- C10: the boolean result of `import_downloads` does not depend on the
download-status snapshot at all — two environments that agree on API key,
probe outcome and POST outcome but carry arbitrary different snapshots
yield the same result (the internal completion re-check is log-only), and
whenever the key is configured and the probe answers 200 the POST is
attempted regardless of the snapshot. -/
theorem c10_snapshot_noninterference (k imp : String) (pr po : HttpOutcome)
    (s1 s2 : Snapshot) (d : String) :
    ((import_downloads ⟨k, imp, s1, pr, po⟩ d).result
       = (import_downloads ⟨k, imp, s2, pr, po⟩ d).result) ∧
    (k ≠ "" → pr = .ok 200 →
       BetaninCall.post ∈ (import_downloads ⟨k, imp, s1, pr, po⟩ d).calls) := by
  constructor
  · by_cases hk : k = ""
    · simp [import_downloads, hk]
    · cases pr with
      | exn => simp [import_downloads, hk]
      | ok s =>
        by_cases hs : s = 200
        · cases po <;> simp [import_downloads, hk, hs]
        · simp [import_downloads, hk, hs]
  · intro hk hp
    subst hp
    cases po <;> simp [import_downloads, hk]

/-- C10 witness: the theorem applied at a configured key and 200-probe
environment with two different snapshots, discharging both hypotheses of
the POST-attempt conjunct. -/
theorem c10_snapshot_noninterference_witness :
    BetaninCall.post ∈ (import_downloads ⟨"key", "/music", exDD,
      .ok 200, .ok 200⟩ "x").calls :=
  (c10_snapshot_noninterference "key" "/music" (.ok 200) (.ok 200)
    exDD [] "x").2 (by decide) rfl

/-- C1 counterexample: with the always-failing import environment,
directory `a` is abandoned at counter 3 after three failing cycles
(state `exSt3`), but because the counter entry survives, the
recently-completed path re-enqueues `a` and the next failing cycle
abandons it again — this time with the counter reaching 4, not 3.  The
conjuncts show: `a` is the re-validated head of cycle 4, its counter was
3 before and 4 after, and the cycle pops it without re-appending. -/
theorem c1_counterexample :
    enqueuePhase exEnv exSt3 = ["a"] ∧
    lookupFailure exSt3.failures "a" = some 3 ∧
    exSt3.queue = [] ∧
    lookupFailure (runCycle exEnv exSt3).failures "a" = some 4 ∧
    (runCycle exEnv exSt3).queue = [] :=
  ⟨by decide, by decide, by decide, by decide, by decide⟩

/-- C1 (amended): when the re-validated queue head fails its import, the
failure counter is incremented by exactly one; the head is popped and
abandoned (not re-appended, processed set unchanged) exactly when the
incremented count is at least 3, and otherwise popped and re-appended to
the tail.  Because counter entries are never removed, a directory
re-detected after an earlier abandonment is abandoned again at a count
above 3, so abandonment coincides with the counter reaching exactly 3
only on a directory's first run of failures. -/
theorem c1_failure_retry_policy (env : CycleEnv) (st : LoopState)
    (d : String) (rest : List String)
    (hq : enqueuePhase env st = d :: rest)
    (hc : is_directory_completed env.downloadData d = true)
    (hk : env.betaninKey = true) (hio : env.importOk d = false) :
    lookupFailure (runCycle env st).failures d
      = some ((lookupFailure st.failures d).getD 0 + 1) ∧
    (3 ≤ (lookupFailure st.failures d).getD 0 + 1 →
       (runCycle env st).queue = rest ∧
       (runCycle env st).processed = st.processed) ∧
    ((lookupFailure st.failures d).getD 0 + 1 < 3 →
       (runCycle env st).queue = rest ++ [d]) := by
  by_cases h3 : 3 ≤ (lookupFailure st.failures d).getD 0 + 1
  · rw [runCycle_fail_abandon env st d rest hq hc hk hio h3]
    exact ⟨lookupFailure_bumpFailure_self st.failures d,
      fun _ => ⟨rfl, rfl⟩, fun h4 => absurd h3 (by omega)⟩
  · rw [runCycle_fail_retry env st d rest hq hc hk hio (by omega)]
    exact ⟨lookupFailure_bumpFailure_self st.failures d,
      fun h4 => absurd h4 h3, fun _ => rfl⟩

/-- C1 witness: the amended theorem applied to the first failing cycle of
the concrete scenario, discharging every hypothesis. -/
theorem c1_failure_retry_policy_witness :
    lookupFailure (runCycle exEnv exSt0).failures "a"
      = some ((lookupFailure exSt0.failures "a").getD 0 + 1) :=
  (c1_failure_retry_policy exEnv exSt0 "a" [] (by decide) (by decide)
    rfl rfl).1

/-- C2 counterexample: in state `exVanish`, directory `a` is still a
queue member and unprocessed, yet it reappears in the newly-appeared set
(the previous set is empty) and the new-directories path appends it with
no queue-membership test: the enqueue passes yield the queue
`[a, a]`, so a name was enqueued via the detection paths while already a
member, refuting the claim. -/
theorem c2_counterexample :
    exVanish.queue = ["a"] ∧
    exVanish.processed = [] ∧
    enqueuePhase exEnv exVanish = ["a", "a"] ∧
    (runCycle exEnv exVanish).queue = ["a", "a"] :=
  ⟨by decide, by decide, by decide, by decide⟩

/-- C2 (amended): only the recently-completed pass tests queue
membership before appending; the new-directories pass tests only
completedness and the processed set, so a queued name that re-enters the
new set gains a duplicate.  For a name not currently in the queue the
cycle still enqueues at most one copy, and every name the detection
passes enqueue is completed and unprocessed. -/
theorem c2_dedup_policy (env : CycleEnv) (st : LoopState) (d : String) :
    (d ∉ st.queue → (enqueuePhase env st).count d ≤ 1) ∧
    (d ∉ st.queue → (runCycle env st).queue.count d ≤ 1) ∧
    (d ∉ st.queue → d ∈ enqueuePhase env st →
       d ∈ get_completed_directories env.downloadData ∧ d ∉ st.processed) :=
  ⟨fun h => enqueuePhase_count_le_one env st d h,
    fun h => le_trans (runCycle_queue_count_le env st d)
      (enqueuePhase_count_le_one env st d h),
    fun h hm => enqueuePhase_mem env st d h hm⟩

/-- C2 witness: the amended theorem applied to a name absent from the
concrete queue. -/
theorem c2_dedup_policy_witness :
    (enqueuePhase exEnv exSt0).count "z" ≤ 1 :=
  (c2_dedup_policy exEnv exSt0 "z").1 (by decide)

/-- C5: the processed set grows monotonically across a cycle and never
shrinks; a name is in the new processed set iff it was already there or
it is the re-validated queue head whose import succeeded this cycle (the
only addition point, reached after the advisory manual-intervention
check, which is log-only: the cycle result is independent of its
answer); and a processed name is never enqueued again by either
detection pass (the enqueue passes leave its queue count unchanged). -/
theorem c5_processed_set (env : CycleEnv) (st : LoopState) :
    (∀ x ∈ st.processed, x ∈ (runCycle env st).processed) ∧
    (∀ x, x ∈ (runCycle env st).processed ↔ x ∈ st.processed ∨
       ∃ rest, enqueuePhase env st = x :: rest ∧
         is_directory_completed env.downloadData x = true ∧
         env.betaninKey = true ∧ env.importOk x = true) ∧
    (∀ x ∈ st.processed,
       (enqueuePhase env st).count x = st.queue.count x) ∧
    (∀ b, runCycle ⟨env.downloadData, env.subdirsData, env.betaninKey,
        env.importOk, b⟩ st = runCycle env st) := by
  have hchar : ∀ x, x ∈ (runCycle env st).processed ↔ x ∈ st.processed ∨
      ∃ rest, enqueuePhase env st = x :: rest ∧
        is_directory_completed env.downloadData x = true ∧
        env.betaninKey = true ∧ env.importOk x = true := by
    intro x
    cases hq : enqueuePhase env st with
    | nil =>
      rw [runCycle_nil env st hq]
      constructor
      · intro h; exact Or.inl h
      · rintro (h | ⟨rest, heq, _⟩)
        · exact h
        · exact absurd heq (by simp)
    | cons d0 rest0 =>
      cases hc : is_directory_completed env.downloadData d0 with
      | false =>
        rw [runCycle_incomplete env st d0 rest0 hq hc]
        constructor
        · intro h; exact Or.inl h
        · rintro (h | ⟨rest, heq, hc2, _, _⟩)
          · exact h
          · injection heq with h1 h2
            subst h1
            rw [hc2] at hc
            exact Bool.noConfusion hc
      | true =>
        cases hk : env.betaninKey with
        | false =>
          rw [runCycle_nokey env st d0 rest0 hq hc hk]
          constructor
          · intro h; exact Or.inl h
          · rintro (h | ⟨rest, heq, _, hk2, _⟩)
            · exact h
            · exact Bool.noConfusion hk2
        | true =>
          cases hio : env.importOk d0 with
          | false =>
            have hfa : (runCycle env st).processed = st.processed := by
              by_cases h3 : 3 ≤ (lookupFailure st.failures d0).getD 0 + 1
              · rw [runCycle_fail_abandon env st d0 rest0 hq hc hk hio h3]
              · rw [runCycle_fail_retry env st d0 rest0 hq hc hk hio (by omega)]
            rw [hfa]
            constructor
            · intro h; exact Or.inl h
            · rintro (h | ⟨rest, heq, _, _, hio2⟩)
              · exact h
              · injection heq with h1 h2
                subst h1
                rw [hio2] at hio
                exact Bool.noConfusion hio
          | true =>
            rw [runCycle_success env st d0 rest0 hq hc hk hio]
            show x ∈ addProcessed st.processed d0 ↔ _
            rw [mem_addProcessed]
            constructor
            · rintro (rfl | h)
              · exact Or.inr ⟨rest0, rfl, hc, rfl, hio⟩
              · exact Or.inl h
            · rintro (h | ⟨rest, heq, _, _, _⟩)
              · exact Or.inr h
              · injection heq with h1 h2
                subst h1
                exact Or.inl rfl
  refine ⟨?_, hchar, ?_, ?_⟩
  · intro x hx
    exact (hchar x).2 (Or.inl hx)
  · intro x hx
    exact enqueuePhase_processed_count env st x hx
  · intro b
    rfl

/-- C5 witness: the theorem applied to a state whose processed set holds
`p`, discharging the membership hypothesis. -/
theorem c5_processed_set_witness :
    "p" ∈ (runCycle exEnv exStP).processed :=
  (c5_processed_set exEnv exStP).1 "p" (by decide)

/-- C9 counterexample: after the third consecutive import failure of
directory `b` it is discarded from the queue (abandoned), yet its
FailureCounter entry survives with value 3 — the map entry is not
removed when the directory is discarded, refuting the claim's frame
condition. -/
theorem c9_counterexample :
    exSt3b.queue = [] ∧ lookupFailure exSt3b.failures "b" = some 3 :=
  ⟨by decide, by decide⟩

/-- C9 (amended): the FailureCounter map is modified only by the
import-failure path — it is unchanged on an empty queue, on an
incomplete-head requeue, on a missing key, and on success (so never
reset by success) — and existing entries are never removed or decreased
by a cycle, abandonment included. -/
theorem c9_failures_frame (env : CycleEnv) (st : LoopState) :
    ((runCycle env st).failures = st.failures ∨
      ∃ d rest, enqueuePhase env st = d :: rest ∧
        is_directory_completed env.downloadData d = true ∧
        env.betaninKey = true ∧ env.importOk d = false ∧
        (runCycle env st).failures = bumpFailure st.failures d) ∧
    (∀ x n, lookupFailure st.failures x = some n →
       ∃ k, lookupFailure (runCycle env st).failures x = some k ∧ n ≤ k) := by
  have hmain : (runCycle env st).failures = st.failures ∨
      ∃ d rest, enqueuePhase env st = d :: rest ∧
        is_directory_completed env.downloadData d = true ∧
        env.betaninKey = true ∧ env.importOk d = false ∧
        (runCycle env st).failures = bumpFailure st.failures d := by
    cases hq : enqueuePhase env st with
    | nil => exact Or.inl (by rw [runCycle_nil env st hq])
    | cons d0 rest0 =>
      cases hc : is_directory_completed env.downloadData d0 with
      | false =>
        exact Or.inl (by rw [runCycle_incomplete env st d0 rest0 hq hc])
      | true =>
        cases hk : env.betaninKey with
        | false =>
          exact Or.inl (by rw [runCycle_nokey env st d0 rest0 hq hc hk])
        | true =>
          cases hio : env.importOk d0 with
          | true =>
            exact Or.inl
              (by rw [runCycle_success env st d0 rest0 hq hc hk hio])
          | false =>
            refine Or.inr ⟨d0, rest0, rfl, hc, rfl, hio, ?_⟩
            by_cases h3 : 3 ≤ (lookupFailure st.failures d0).getD 0 + 1
            · rw [runCycle_fail_abandon env st d0 rest0 hq hc hk hio h3]
            · rw [runCycle_fail_retry env st d0 rest0 hq hc hk hio (by omega)]
  refine ⟨hmain, ?_⟩
  intro x n h
  rcases hmain with he | ⟨d0, rest0, _, _, _, _, he⟩
  · exact ⟨n, by rw [he]; exact h, le_refl n⟩
  · rw [he]
    exact lookupFailure_bumpFailure_mono st.failures d0 x n h

/-- C9 witness: the frame theorem applied to a concrete state holding a
counter entry, discharging the lookup hypothesis. -/
theorem c9_failures_frame_witness :
    ∃ k, lookupFailure (runCycle emptyEnv exSt1).failures "a" = some k ∧
      1 ≤ k :=
  (c9_failures_frame emptyEnv exSt1).2 "a" 1 (by decide)
